import Mathlib

/-!
Verification development for the `reccli-ts` helper scripts
(`download_folder.py`, `upload_folder.py`, `clear_recycle.py`).

The three scripts shell out to an external CLI (`reccli-ts run -c "..."`)
to mirror directory trees.  We embed, faithfully to the Python source:

* the Python string primitives the scripts use (`str.strip`, `str.rstrip('/')`,
  `str.splitlines`, `str.endswith('/')`, `os.path.join`, `os.path.dirname`,
  `os.path.basename`, `shlex.quote`), with CPython's full whitespace and
  line-boundary character sets;
* a POSIX-shell tokenizer (field splitting with single quotes, double quotes,
  backslash escapes, comment and operator characters).  Parameter/command
  expansion (`$`, backtick) is not modelled: the tokenizer answers `none`
  when it meets an unquoted or double-quoted `$` or backtick, and likewise
  for an unterminated quote (a shell syntax error);
* the scripts' traversal logic as total functions from oracles (the external
  command's behaviour, the local filesystem) to a trace of events, with a
  fuel bound on recursion depth (fuel `0` yields the empty trace; every
  theorem either supplies enough fuel or quantifies over `fuel + 1`).
-/

namespace RecCli

/-- Concatenation of the lists produced by `f`, in order — the shape of a
Python `for` loop whose body appends a block of actions per item. -/
def concatMap (f : α → List β) : List α → List β
  | [] => []
  | x :: xs => f x ++ concatMap f xs

/-! ### Python string primitives (ASCII model) -/

/-- The characters stripped by Python `str.strip()`: CPython's
`Py_UNICODE_ISSPACE` set — `\t`–`\x0d`, `\x1c`–`\x1f`, space, NEL,
no-break space, and the Unicode space-separator characters. -/
def isPySpace (c : Char) : Bool :=
  c ∈ ['\t', '\n', '\x0b', '\x0c', '\x0d', '\x1c', '\x1d', '\x1e', '\x1f',
       ' ', '\u0085', '\u00a0', '\u1680', '\u2000', '\u2001', '\u2002',
       '\u2003', '\u2004', '\u2005', '\u2006', '\u2007', '\u2008', '\u2009',
       '\u200a', '\u2028', '\u2029', '\u202f', '\u205f', '\u3000']

/-- Python `s.strip()`. -/
def pyStrip (s : String) : String :=
  String.mk (((s.data.dropWhile isPySpace).reverse.dropWhile isPySpace).reverse)

/-- Python `s.rstrip('/')`: removes ALL trailing `'/'` characters. -/
def pyRstripSlash (s : String) : String :=
  String.mk ((s.data.reverse.dropWhile (· = '/')).reverse)

/-- Python `s.endswith('/')`. -/
def endsSlash (s : String) : Bool :=
  s.data.getLast? = some '/'

/-- The line-boundary characters of Python `str.splitlines()`: `\n`, `\r`
(with `\r\n` counting once), `\x0b`, `\x0c`, `\x1c`, `\x1d`, `\x1e`, NEL,
and the Unicode line and paragraph separators. -/
def isPyLineBreak (c : Char) : Bool :=
  c ∈ ['\n', '\x0d', '\x0b', '\x0c', '\x1c', '\x1d', '\x1e',
       '\u0085', '\u2028', '\u2029']

/-- Helper for `splitlines`: `acc` holds the current line reversed;
`afterCR` records that the previous character was a carriage return (whose
line was already emitted), so that a following `\n` is swallowed. -/
def splitlinesAux : List Char → List Char → Bool → List String
  | [], acc, _ => if acc = [] then [] else [String.mk acc.reverse]
  | c :: rest, acc, afterCR =>
      if c = '\n' then
        if afterCR then splitlinesAux rest [] false
        else String.mk acc.reverse :: splitlinesAux rest [] false
      else if c = '\x0d' then
        String.mk acc.reverse :: splitlinesAux rest [] true
      else if isPyLineBreak c then
        String.mk acc.reverse :: splitlinesAux rest [] false
      else splitlinesAux rest (c :: acc) false

/-- Python `s.splitlines()`: split at every line boundary (only `\r\n`
pairs up); a trailing line break yields no trailing empty line. -/
def splitlines (s : String) : List String :=
  splitlinesAux s.data [] false

/-- Concatenate lines, a linefeed after each — the shape of the listing
stdout `splitlines` is applied to. -/
def joinNL : List String → String
  | [] => ""
  | l :: ls => l ++ "\n" ++ joinNL ls

/-- Python `os.path.join(a, b)` for POSIX paths. -/
def pyJoin (a b : String) : String :=
  if b.data.head? = some '/' then b
  else if a = "" ∨ a.data.getLast? = some '/' then a ++ b
  else a ++ "/" ++ b

/-- The split step shared by `os.path.dirname` / `os.path.basename` (POSIX):
head = everything up to and including the last `'/'`, tail = the rest. -/
def splitLastSlash (p : String) : String × String :=
  (String.mk ((p.data.reverse.dropWhile (· ≠ '/')).reverse),
   String.mk ((p.data.reverse.takeWhile (· ≠ '/')).reverse))

/-- Python `os.path.dirname` (POSIX): the head of the split, with trailing
slashes removed unless the head is empty or consists only of slashes. -/
def dirname (p : String) : String :=
  let head := (splitLastSlash p).1
  if head ≠ "" ∧ head.data.any (· ≠ '/') then
    String.mk ((head.data.reverse.dropWhile (· = '/')).reverse)
  else head

/-- Python `os.path.basename` (POSIX): everything after the last `'/'`. -/
def basename (p : String) : String :=
  (splitLastSlash p).2

/-! ### `shlex.quote` (CPython) -/

/-- CPython's `_find_unsafe` character class complement: with `re.ASCII`,
the characters `shlex.quote` leaves unquoted are ASCII letters, digits,
and `_ @ % + = : , . - ` and the slash. -/
def shlexSafeChar (c : Char) : Bool :=
  c.isAlpha ∨ c.isDigit ∨ c = '_' ∨ c = '@' ∨ c = '%' ∨ c = '+' ∨ c = '=' ∨
  c = ':' ∨ c = ',' ∨ c = '.' ∨ c = '/' ∨ c = '-'

/-- The replacement CPython applies inside quotes:
`s.replace("'", "'\"'\"'")` at the level of one character. -/
def shlexEsc (c : Char) : List Char :=
  if c = '\'' then ['\'', '"', '\'', '"', '\''] else [c]

/-- CPython `shlex.quote`: empty strings become `''`; strings of safe
characters pass through; anything else is single-quoted with the
`'"'"'` dance for embedded single quotes. -/
def shlexQuote (s : String) : String :=
  if s = "" then "''"
  else if s.data.all shlexSafeChar then s
  else "'" ++ String.mk (s.data.flatMap shlexEsc) ++ "'"

/-- `escape_shell_path` in all three scripts is exactly `shlex.quote`. -/
def escape_shell_path (path : String) : String := shlexQuote path

/-! ### POSIX shell field splitting -/

/-- A token produced by shell lexing: a word (after quote removal) or an
operator/separator character (`;`, `&`, `|`, `<`, `>`, `(`, `)`, newline). -/
inductive ShTok where
  | word : String → ShTok
  | op : Char → ShTok
deriving DecidableEq

/-- Shell operator characters (command separators / redirections). -/
def isShOp (c : Char) : Bool :=
  c = ';' ∨ c = '&' ∨ c = '|' ∨ c = '<' ∨ c = '>' ∨ c = '(' ∨ c = ')' ∨ c = '\n'

/-- Lexer mode: normal, single-quoted, double-quoted, comment, or just after
a backslash in normal / double-quoted context. -/
inductive LexMode where
  | norm | sq | dq | cmt | esc | dqesc
deriving DecidableEq

/-- Close the current word accumulator (reversed chars), if any. -/
def flushWord : Option (List Char) → List ShTok → List ShTok
  | none, toks => toks
  | some acc, toks => ShTok.word (String.mk acc.reverse) :: toks

/-- POSIX shell field splitter.  `acc` is the current word, reversed;
`toks` the tokens so far, reversed.  Returns `none` on an unterminated
quote, a trailing backslash, or an unmodelled expansion (`$`, backtick). -/
def shLexAux : LexMode → List Char → Option (List Char) → List ShTok →
    Option (List ShTok)
  | .norm, [], acc, toks => some (flushWord acc toks).reverse
  | .cmt, [], _, toks => some toks.reverse
  | .sq, [], _, _ => none
  | .dq, [], _, _ => none
  | .esc, [], _, _ => none
  | .dqesc, [], _, _ => none
  | .norm, c :: l, acc, toks =>
      if c = ' ' ∨ c = '\t' then shLexAux .norm l none (flushWord acc toks)
      else if isShOp c then shLexAux .norm l none (ShTok.op c :: flushWord acc toks)
      else if c = '\'' then shLexAux .sq l (some (acc.getD [])) toks
      else if c = '"' then shLexAux .dq l (some (acc.getD [])) toks
      else if c = '$' ∨ c = '`' then none
      else if c = '\\' then shLexAux .esc l acc toks
      else if c = '#' ∧ acc = none then shLexAux .cmt l none toks
      else shLexAux .norm l (some (c :: acc.getD [])) toks
  | .esc, d :: l, acc, toks =>
      if d = '\n' then shLexAux .norm l acc toks
      else shLexAux .norm l (some (d :: acc.getD [])) toks
  | .sq, c :: l, acc, toks =>
      if c = '\'' then shLexAux .norm l acc toks
      else shLexAux .sq l (some (c :: acc.getD [])) toks
  | .dq, c :: l, acc, toks =>
      if c = '"' then shLexAux .norm l acc toks
      else if c = '$' ∨ c = '`' then none
      else if c = '\\' then shLexAux .dqesc l acc toks
      else shLexAux .dq l (some (c :: acc.getD [])) toks
  | .dqesc, d :: l, acc, toks =>
      if d = '$' ∨ d = '`' ∨ d = '"' ∨ d = '\\' then
        shLexAux .dq l (some (d :: acc.getD [])) toks
      else if d = '\n' then shLexAux .dq l acc toks
      else shLexAux .dq l (some (d :: '\\' :: acc.getD [])) toks
  | .cmt, c :: l, _, toks =>
      if c = '\n' then shLexAux .norm l none (ShTok.op '\n' :: toks)
      else shLexAux .cmt l none toks

/-- Tokenize a command string as `/bin/sh` would (field splitting and quote
removal; expansions unmodelled). -/
def shLex (s : String) : Option (List ShTok) :=
  shLexAux .norm s.data none []

/-! ### The command strings the scripts build

Every external invocation in the three scripts is an f-string of the shape
`reccli-ts run -c "<sub> <quoted path> [<quoted path>]"` with each path
escaped by `escape_shell_path` (the recycle listing hard-codes its path). -/

/-- `" " ++ shlex.quote p` for each path, concatenated. -/
def quotedArgs : List String → String
  | [] => ""
  | p :: ps => " " ++ escape_shell_path p ++ quotedArgs ps

/-- The inner command handed to `reccli-ts run -c`. -/
def innerCmd (sub : String) (paths : List String) : String :=
  sub ++ quotedArgs paths

/-- The full string passed to `subprocess.run(..., shell=True)`. -/
def buildCmd (sub : String) (paths : List String) : String :=
  "reccli-ts run -c \"" ++ innerCmd sub paths ++ "\""

def lspCmd (p : String) : String := buildCmd "lsp" [p]

def downloadCmd (remoteFile localFile : String) : String :=
  buildCmd "download" [remoteFile, localFile]

def mkdirCmd (p : String) : String := buildCmd "mkdir" [p]

def rmCmd (p : String) : String := buildCmd "rm" [p]

def uploadCmd (localFile parent : String) : String :=
  buildCmd "upload" [localFile, parent]

/-- `clear_recycle.py` builds its listing command as a literal f-string with
no interpolation: `reccli-ts run -c "lsp /recycle"`. -/
def lspRecycleCmd : String := "reccli-ts run -c \"lsp /recycle\""

/-! ### Oracles and the event trace -/

/-- The external CLI, opaque behind its two observable effects:
`out cmd` is `some stdout` when the command exits zero (for the
`capture_output=True` listing calls), `none` when it exits non-zero;
`ok cmd` is the exit-zero flag for the non-capturing calls. -/
structure Oracle where
  out : String → Option String
  ok : String → Bool

/-- One observable action of a script run, in program order.  The `Err`
variants are the `except subprocess.CalledProcessError` branches, which
print and continue. -/
inductive Event where
  | makedirs (path : String)
  | downloadOk (remote localFile : String)
  | downloadErr (remote localFile : String)
  | listErr (path : String)
  | removedOk (path : String)
  | removedErr (path : String)
  | mkdirOk (path : String)
  | mkdirErr (path : String)
  | uploadOk (localFile remote : String)
  | uploadErr (localFile remote : String)
  | recycleListErr
deriving DecidableEq

/-! ### `download_folder.py` -/

/-- `get_remote_files`: run the listing command; on success return
`stdout.splitlines()`, on `CalledProcessError` print an error (the
`listErr` event) and return `[]`. -/
def get_remote_files (o : Oracle) (remote_path : String) :
    List String × List Event :=
  match o.out (lspCmd remote_path) with
  | some stdout => (splitlines stdout, [])
  | none => ([], [Event.listErr remote_path])

/-- `download_file`: run the download command; log success or failure. -/
def download_file (o : Oracle) (remote_file_path local_file_path : String) :
    List Event :=
  if o.ok (downloadCmd remote_file_path local_file_path) then
    [Event.downloadOk remote_file_path local_file_path]
  else
    [Event.downloadErr remote_file_path local_file_path]

/-- The body of the `for item in items` loop of `process_remote_path`,
with the recursive call abstracted as `recurse`. -/
def processItemDlCore (recurse : String → String → List Event)
    (o : Oracle) (remote_path local_path item : String) : List Event :=
  let item_name := pyStrip item
  if item_name = "" then []
  else
    let remote_item_path := remote_path ++ "/" ++ item_name
    if endsSlash item_name then
      let local_dir_path := pyJoin local_path (pyRstripSlash item_name)
      Event.makedirs local_dir_path ::
        recurse (pyRstripSlash remote_item_path) local_dir_path
    else
      let local_file_path := pyJoin local_path item_name
      download_file o remote_item_path local_file_path

/-- `process_remote_path`, with fuel bounding the recursion depth
(fuel `0` yields no events; any fuel of at least the tree depth agrees
with the Python recursion). -/
def process_remote_path (o : Oracle) : Nat → String → String → List Event
  | 0, _, _ => []
  | fuel + 1, remote_path, local_path =>
      let res := get_remote_files o remote_path
      res.2 ++ concatMap
        (processItemDlCore (process_remote_path o fuel) o remote_path local_path)
        res.1

/-- One loop iteration of `process_remote_path` at the given fuel. -/
def processItemDl (o : Oracle) (fuel : Nat) (remote_path local_path item : String) :
    List Event :=
  processItemDlCore (process_remote_path o fuel) o remote_path local_path item

/-- The whole `for` loop of `process_remote_path` at the given fuel. -/
def processItemsDl (o : Oracle) (fuel : Nat) (remote_path local_path : String)
    (items : List String) : List Event :=
  concatMap (processItemDl o fuel remote_path local_path) items

/-- The script's `__main__` flow: `os.makedirs(local_path, exist_ok=True)`
for the fixed local root, then the traversal from the fixed remote root. -/
def mainDownload (o : Oracle) (fuel : Nat) : List Event :=
  Event.makedirs "./download" :: process_remote_path o fuel "/cloud/download" "./download"

/-- The strip-and-skip performed on raw listing lines by every traversal
loop (`item_name = item.strip(); if not item_name: continue`): the sequence
of entry names the loop actually acts on. -/
def processedNames : List String → List String
  | [] => []
  | item :: rest =>
      let n := pyStrip item
      if n = "" then processedNames rest else n :: processedNames rest

/-! ### `upload_folder.py` -/

/-- `remote_path_exists`: list the parent of the (rstripped) path and
search for an entry whose strip equals the directory name plus `/`;
a failed listing counts as "does not exist". -/
def remote_path_exists (o : Oracle) (remote_path : String) : Bool :=
  let parent_path := dirname (pyRstripSlash remote_path)
  let directory_name := basename (pyRstripSlash remote_path)
  match o.out (lspCmd parent_path) with
  | none => false
  | some stdout =>
      (splitlines stdout).any (fun item => pyStrip item = directory_name ++ "/")

/-- `ensure_remote_path`: create the directory when the existence check
fails; a `mkdir` failure is logged and not escalated. -/
def ensure_remote_path (o : Oracle) (remote_path : String) : List Event :=
  if remote_path_exists o remote_path then []
  else if o.ok (mkdirCmd remote_path) then [Event.mkdirOk remote_path]
  else [Event.mkdirErr remote_path]

/-- `upload_file`: ensure the remote parent, then run the upload command
(the command names the parent folder; the log names the full remote path). -/
def upload_file (o : Oracle) (local_file_path remote_file_path : String) :
    List Event :=
  let parent_folder := dirname remote_file_path
  ensure_remote_path o parent_folder ++
    (if o.ok (uploadCmd local_file_path parent_folder) then
      [Event.uploadOk local_file_path remote_file_path]
    else
      [Event.uploadErr local_file_path remote_file_path])

/-- A Python exception escaping the traversal (the scripts only ever leak
`OSError` from `os.listdir`; carried datum: the offending path). -/
inductive PyExc where
  | osError (path : String)
deriving DecidableEq

/-- The local filesystem as `upload_folder.py` observes it:
`listdir` may raise, `isdir` is total. -/
structure LocalFS where
  listdir : String → Except PyExc (List String)
  isdir : String → Bool

/-- Run the loop body `f` over the items, aborting (as an uncaught
exception does) at the first item whose result carries an exception. -/
def runItemsUp (f : α → List Event × Option PyExc) :
    List α → List Event × Option PyExc
  | [] => ([], none)
  | x :: xs =>
      match f x with
      | (ev, some e) => (ev, some e)
      | (ev, none) =>
          let r := runItemsUp f xs
          (ev ++ r.1, r.2)

/-- The body of the `for item in os.listdir(local_path)` loop of
`process_local_path`, with the recursive call abstracted as `recurse`. -/
def uploadItemCore (fs : LocalFS) (o : Oracle)
    (recurse : String → String → List Event × Option PyExc)
    (local_path remote_path item : String) : List Event × Option PyExc :=
  let local_item_path := pyJoin local_path item
  let remote_item_path := remote_path ++ "/" ++ item
  if fs.isdir local_item_path then
    let ev := ensure_remote_path o remote_item_path
    let r := recurse local_item_path remote_item_path
    (ev ++ r.1, r.2)
  else
    (upload_file o local_item_path remote_item_path, none)

/-- `process_local_path`: ensure the remote root, then enumerate the local
directory.  `os.listdir` is not wrapped in any `try`, so its failure
aborts the whole traversal (the `Option PyExc` component). -/
def process_local_path (fs : LocalFS) (o : Oracle) :
    Nat → String → String → List Event × Option PyExc
  | 0, _, _ => ([], none)
  | fuel + 1, local_path, remote_path =>
      let ev0 := ensure_remote_path o remote_path
      match fs.listdir local_path with
      | .error e => (ev0, some e)
      | .ok items =>
          let r := runItemsUp
            (fun item => uploadItemCore fs o (process_local_path fs o fuel)
              local_path remote_path item) items
          (ev0 ++ r.1, r.2)

/-! ### `clear_recycle.py` -/

/-- `get_remote_recycle_files`: list the fixed `/recycle` path. -/
def get_remote_recycle_files (o : Oracle) : List String × List Event :=
  match o.out lspRecycleCmd with
  | some stdout => (splitlines stdout, [])
  | none => ([], [Event.recycleListErr])

/-- The body of the removal loop of `clear_recycle`: strip, skip blanks,
remove `/recycle/<name>` and log the outcome. -/
def clearItem (o : Oracle) (item : String) : List Event :=
  let item_name := pyStrip item
  if item_name = "" then []
  else
    let remote_file_path := "/recycle/" ++ item_name
    if o.ok (rmCmd remote_file_path) then [Event.removedOk remote_file_path]
    else [Event.removedErr remote_file_path]

/-- `clear_recycle`: list the recycle path, then remove every entry,
failures logged and skipped independently. -/
def clear_recycle (o : Oracle) : List Event :=
  let res := get_remote_recycle_files o
  res.2 ++ concatMap (clearItem o) res.1

/-! ### Spec-side definition for the trailing-separator claim

Modelled from the spec: "the mirror logic must strip exactly one trailing
separator before recursing, never more". -/

/-- Strip exactly one trailing `'/'` — the spec's words, to be compared
with the source's `rstrip('/')` (`pyRstripSlash`). -/
def stripOneTrailingSlash (s : String) : String :=
  if endsSlash s then String.mk s.data.dropLast else s

/-! ### Character classes for the shell-lexing proofs -/

/-- Characters with lexical meaning to the shell at top level: a word made
of characters outside this set is consumed literally. -/
abbrev OrdC (c : Char) : Prop :=
  c ∉ ([' ', '\t', ';', '&', '|', '<', '>', '(', ')', '\n',
        '\'', '"', '$', '`', '\\', '#'] : List Char)

/-- Characters with lexical meaning inside double quotes. -/
abbrev DqOrd (c : Char) : Prop :=
  c ∉ (['"', '$', '`', '\\'] : List Char)

/-- The paths for which the scripts' double-quote-embedded escaping is
provably faithful: no single quote (which breaks `shlex.quote`'s dance
inside the outer double quotes) and no character that stays special
inside POSIX double quotes. -/
abbrev SafeEmbed (p : String) : Prop :=
  ∀ c ∈ p.data, c ∉ (['\'', '"', '$', '`', '\\'] : List Char)

/-! ### Concrete oracles used by the closed scenarios -/

/-- An external CLI on which every listing fails and every action
succeeds. -/
def oracleListFail : Oracle :=
  { out := fun _ => none, ok := fun _ => true }

/-- The remote tree of the download scenario:
`/cloud/download` holds `a.txt` and `sub/`, and `sub` holds `b.txt`. -/
def oracleDownloadTree : Oracle :=
  { out := fun c =>
      if c = lspCmd "/cloud/download" then some "a.txt\nsub/\n"
      else if c = lspCmd "/cloud/download/sub" then some "b.txt\n"
      else none,
    ok := fun _ => true }

/-- A remote root `/r` whose listing names the entry `sub//` (two trailing
separators); nothing else is listable. -/
def oracleDoubleSlash : Oracle :=
  { out := fun c => if c = lspCmd "/r" then some "sub//\n" else none,
    ok := fun _ => true }

/-- A recycle bin holding `x.txt` and `y.txt` where removing `x.txt`
fails and removing `y.txt` succeeds. -/
def oracleRecycle : Oracle :=
  { out := fun c => if c = lspRecycleCmd then some "x.txt\ny.txt\n" else none,
    ok := fun c => c = rmCmd "/recycle/y.txt" }

/-- A remote store where `/cloud` holds `upload/` and `other.txt`. -/
def oracleParentListing : Oracle :=
  { out := fun c => if c = lspCmd "/cloud" then some "upload/\nother.txt\n" else none,
    ok := fun _ => true }

/-- A local filesystem on which every `os.listdir` raises `OSError`. -/
def fsAllFail : LocalFS :=
  { listdir := fun p => .error (PyExc.osError p), isdir := fun _ => false }

/-- A local filesystem with `./upload` holding the single file `f.txt`. -/
def fsOneFile : LocalFS :=
  { listdir := fun p => if p = "./upload" then .ok ["f.txt"] else .error (PyExc.osError p),
    isdir := fun _ => false }

/-- An external CLI on which every command fails. -/
def oracleAllFail : Oracle :=
  { out := fun _ => none, ok := fun _ => false }

/-! ### Basic facts -/

theorem concatMap_append (f : α → List β) (xs ys : List α) :
    concatMap f (xs ++ ys) = concatMap f xs ++ concatMap f ys := by
  induction xs with
  | nil => rfl
  | cons x xs ih => simp [concatMap, ih]

theorem string_mk_data (s : String) : String.mk s.data = s := by
  cases s; rfl

theorem string_data_append (a b : String) : (a ++ b).data = a.data ++ b.data := by
  cases a; cases b; rfl

theorem safeChar_ord {c : Char} (h : shlexSafeChar c = true) : OrdC c := by
  intro hm
  fin_cases hm <;> exact absurd h (by decide)

theorem safeChar_dq {c : Char} (h : shlexSafeChar c = true) : DqOrd c := by
  intro hm
  fin_cases hm <;> exact absurd h (by decide)

theorem alphaChar_ord {c : Char} (h : c.isAlpha = true) : OrdC c := by
  intro hm
  fin_cases hm <;> exact absurd h (by decide)

theorem alphaChar_dq {c : Char} (h : c.isAlpha = true) : DqOrd c := by
  intro hm
  fin_cases hm <;> exact absurd h (by decide)

/-! ### Single steps of the lexer -/

theorem lex_norm_ord {c : Char} (h : OrdC c) (l : List Char)
    (acc : Option (List Char)) (toks : List ShTok) :
    shLexAux .norm (c :: l) acc toks =
      shLexAux .norm l (some (c :: acc.getD [])) toks := by
  simp only [OrdC, List.mem_cons, List.not_mem_nil, or_false, not_or] at h
  obtain ⟨h1, h2, h3, h4, h5, h6, h7, h8, h9, h10, h11, h12, h13, h14, h15, h16⟩ := h
  simp [shLexAux, isShOp, h1, h2, h3, h4, h5, h6, h7, h8, h9, h10, h11, h12,
    h13, h14, h15, h16]

theorem lex_norm_blank (l : List Char) (acc : Option (List Char))
    (toks : List ShTok) :
    shLexAux .norm (' ' :: l) acc toks = shLexAux .norm l none (flushWord acc toks) := by
  simp [shLexAux]

theorem lex_sq_open (l : List Char) (acc : Option (List Char)) (toks : List ShTok) :
    shLexAux .norm ('\'' :: l) acc toks = shLexAux .sq l (some (acc.getD [])) toks := by
  simp [shLexAux, isShOp]

theorem lex_sq_close (l : List Char) (acc : Option (List Char)) (toks : List ShTok) :
    shLexAux .sq ('\'' :: l) acc toks = shLexAux .norm l acc toks := by
  simp [shLexAux]

theorem lex_sq_lit {c : Char} (h : c ≠ '\'') (l : List Char)
    (acc : Option (List Char)) (toks : List ShTok) :
    shLexAux .sq (c :: l) acc toks = shLexAux .sq l (some (c :: acc.getD [])) toks := by
  simp [shLexAux, h]

theorem lex_dq_open (l : List Char) (acc : Option (List Char)) (toks : List ShTok) :
    shLexAux .norm ('"' :: l) acc toks = shLexAux .dq l (some (acc.getD [])) toks := by
  simp [shLexAux, isShOp]

theorem lex_dq_close (l : List Char) (acc : Option (List Char)) (toks : List ShTok) :
    shLexAux .dq ('"' :: l) acc toks = shLexAux .norm l acc toks := by
  simp [shLexAux]

theorem lex_dq_lit {c : Char} (h : DqOrd c) (l : List Char)
    (acc : Option (List Char)) (toks : List ShTok) :
    shLexAux .dq (c :: l) acc toks = shLexAux .dq l (some (c :: acc.getD [])) toks := by
  simp only [DqOrd, List.mem_cons, List.not_mem_nil, or_false, not_or] at h
  obtain ⟨h1, h2, h3, h4⟩ := h
  simp [shLexAux, h1, h2, h3, h4]

theorem lex_norm_nil (acc : Option (List Char)) (toks : List ShTok) :
    shLexAux .norm [] acc toks = some (flushWord acc toks).reverse := by
  simp [shLexAux]

/-! ### Runs of literal characters -/

theorem lex_norm_run {cs : List Char} (h : ∀ c ∈ cs, OrdC c) (l : List Char)
    (acc : List Char) (toks : List ShTok) :
    shLexAux .norm (cs ++ l) (some acc) toks =
      shLexAux .norm l (some (cs.reverse ++ acc)) toks := by
  induction cs generalizing acc with
  | nil => simp
  | cons c cs ih =>
      rw [List.cons_append, lex_norm_ord (h c (List.mem_cons_self c cs))]
      simp only [Option.getD_some]
      rw [ih (fun d hd => h d (List.mem_cons_of_mem c hd))]
      simp

theorem lex_norm_word_start {cs : List Char} (h : ∀ c ∈ cs, OrdC c)
    (hne : cs ≠ []) (l : List Char) (toks : List ShTok) :
    shLexAux .norm (cs ++ l) none toks =
      shLexAux .norm l (some cs.reverse) toks := by
  obtain ⟨c, cs', rfl⟩ : ∃ c cs', cs = c :: cs' := by
    cases cs with
    | nil => exact absurd rfl hne
    | cons c cs' => exact ⟨c, cs', rfl⟩
  rw [List.cons_append, lex_norm_ord (h c (List.mem_cons_self c cs'))]
  simp only [Option.getD_none]
  rw [lex_norm_run (fun d hd => h d (List.mem_cons_of_mem c hd))]
  simp

theorem lex_sq_run {cs : List Char} (h : ∀ c ∈ cs, c ≠ '\'') (l : List Char)
    (acc : List Char) (toks : List ShTok) :
    shLexAux .sq (cs ++ l) (some acc) toks =
      shLexAux .sq l (some (cs.reverse ++ acc)) toks := by
  induction cs generalizing acc with
  | nil => simp
  | cons c cs ih =>
      rw [List.cons_append, lex_sq_lit (h c (List.mem_cons_self c cs))]
      simp only [Option.getD_some]
      rw [ih (fun d hd => h d (List.mem_cons_of_mem c hd))]
      simp

theorem lex_dq_run {cs : List Char} (h : ∀ c ∈ cs, DqOrd c) (l : List Char)
    (acc : List Char) (toks : List ShTok) :
    shLexAux .dq (cs ++ l) (some acc) toks =
      shLexAux .dq l (some (cs.reverse ++ acc)) toks := by
  induction cs generalizing acc with
  | nil => simp
  | cons c cs ih =>
      rw [List.cons_append, lex_dq_lit (h c (List.mem_cons_self c cs))]
      simp only [Option.getD_some]
      rw [ih (fun d hd => h d (List.mem_cons_of_mem c hd))]
      simp

/-! ### Parsing the quoted pieces -/

theorem string_ext {a b : String} (h : a.data = b.data) : a = b := by
  cases a; cases b; exact congrArg String.mk h

theorem data_ne_nil {p : String} (h : p ≠ "") : p.data ≠ [] := by
  intro hd
  exact h (string_ext (by simp [hd]))

theorem flatMap_esc_id {l : List Char} (h : ∀ c ∈ l, c ≠ '\'') :
    l.flatMap shlexEsc = l := by
  induction l with
  | nil => rfl
  | cons c cs ih =>
      simp only [List.flatMap_cons, shlexEsc,
        if_neg (h c (List.mem_cons_self c cs))]
      rw [ih (fun d hd => h d (List.mem_cons_of_mem c hd))]
      rfl

theorem safeEmbed_no_quote {p : String} (hp : SafeEmbed p) :
    ∀ c ∈ p.data, c ≠ '\'' := by
  intro c hc he
  exact hp c hc (by rw [he]; exact List.mem_cons_self _ _)

theorem shlexQuote_unsafe_data {p : String} (hne : p ≠ "")
    (hs : ¬ p.data.all shlexSafeChar = true) (hq : ∀ c ∈ p.data, c ≠ '\'') :
    (shlexQuote p).data = '\'' :: (p.data ++ ['\'']) := by
  simp only [shlexQuote, if_neg hne, if_neg hs]
  rw [string_data_append, string_data_append, flatMap_esc_id hq]
  rfl

theorem shlexQuote_chars {p : String} (hq : ∀ c ∈ p.data, c ≠ '\'') :
    ∀ c ∈ (shlexQuote p).data, c = '\'' ∨ c ∈ p.data := by
  intro c hc
  by_cases hne : p = ""
  · subst hne
    rw [show (shlexQuote "").data = ['\'', '\''] from rfl] at hc
    simp only [List.mem_cons, List.not_mem_nil, or_false] at hc
    exact Or.inl (hc.elim id id)
  · by_cases hs : p.data.all shlexSafeChar = true
    · rw [shlexQuote, if_neg hne, if_pos hs] at hc
      exact Or.inr hc
    · rw [shlexQuote_unsafe_data hne hs hq] at hc
      simp only [List.mem_cons, List.mem_append, List.not_mem_nil, or_false] at hc
      rcases hc with h | h | h
      · exact Or.inl h
      · exact Or.inr h
      · exact Or.inl h

/-- Parsing one `shlex.quote`d path at the start of a word recovers exactly
the original path as the word content. -/
theorem lex_quoted_path {p : String} (hp : SafeEmbed p) (l : List Char)
    (toks : List ShTok) :
    shLexAux .norm ((shlexQuote p).data ++ l) none toks =
      shLexAux .norm l (some p.data.reverse) toks := by
  by_cases hne : p = ""
  · subst hne
    show shLexAux .norm ('\'' :: '\'' :: l) none toks = _
    rw [lex_sq_open, lex_sq_close]
    rfl
  · by_cases hs : p.data.all shlexSafeChar = true
    · rw [shlexQuote, if_neg hne, if_pos hs]
      exact lex_norm_word_start
        (fun c hc => safeChar_ord (List.all_eq_true.1 hs c hc))
        (data_ne_nil hne) l toks
    · rw [shlexQuote_unsafe_data hne hs (safeEmbed_no_quote hp)]
      show shLexAux .norm ('\'' :: ((p.data ++ ['\'']) ++ l)) none toks = _
      rw [lex_sq_open, List.append_assoc, lex_sq_run (safeEmbed_no_quote hp)]
      show shLexAux .sq ('\'' :: l) _ toks = _
      rw [lex_sq_close]
      simp

/-- Parsing the argument part `(" " ++ quote p)*` after an open word: each
path becomes exactly one word token. -/
theorem lex_args {paths : List String} (hps : ∀ p ∈ paths, SafeEmbed p)
    (acc : List Char) (toks : List ShTok) :
    shLexAux .norm (quotedArgs paths).data (some acc) toks =
      some ((flushWord (some acc) toks).reverse ++ paths.map ShTok.word) := by
  induction paths generalizing acc toks with
  | nil =>
      show shLexAux .norm [] (some acc) toks = _
      rw [lex_norm_nil]
      simp
  | cons p ps ih =>
      have hdata : (quotedArgs (p :: ps)).data =
          ' ' :: ((shlexQuote p).data ++ (quotedArgs ps).data) := by
        show (" " ++ escape_shell_path p ++ quotedArgs ps).data = _
        rw [string_data_append, string_data_append]
        rfl
      rw [hdata, lex_norm_blank,
        lex_quoted_path (hps p (List.mem_cons_self p ps)),
        ih (fun q hq => hps q (List.mem_cons_of_mem p hq))]
      simp [flushWord, string_mk_data]

theorem quotedArgs_dq {paths : List String} (hps : ∀ p ∈ paths, SafeEmbed p) :
    ∀ c ∈ (quotedArgs paths).data, DqOrd c := by
  induction paths with
  | nil => intro c hc; exact absurd hc (List.not_mem_nil c)
  | cons p ps ih =>
      intro c hc
      have hdata : (quotedArgs (p :: ps)).data =
          ' ' :: ((shlexQuote p).data ++ (quotedArgs ps).data) := by
        show (" " ++ escape_shell_path p ++ quotedArgs ps).data = _
        rw [string_data_append, string_data_append]
        rfl
      rw [hdata] at hc
      have hp := hps p (List.mem_cons_self p ps)
      rcases List.mem_cons.1 hc with h | h
      · subst h; decide
      · rcases List.mem_append.1 h with h | h
        · rcases shlexQuote_chars (safeEmbed_no_quote hp) c h with h1 | h1
          · subst h1; decide
          · exact fun hm => hp c h1 (List.mem_cons_of_mem _ hm)
        · exact ih (fun q hq => hps q (List.mem_cons_of_mem p hq)) c h

theorem innerCmd_dq {sub : String} {paths : List String}
    (hsub : ∀ c ∈ sub.data, c.isAlpha = true)
    (hps : ∀ p ∈ paths, SafeEmbed p) :
    ∀ c ∈ (innerCmd sub paths).data, DqOrd c := by
  intro c hc
  rw [show (innerCmd sub paths).data = sub.data ++ (quotedArgs paths).data from
    string_data_append sub (quotedArgs paths)] at hc
  rcases List.mem_append.1 hc with h | h
  · exact alphaChar_dq (hsub c h)
  · exact quotedArgs_dq hps c h

/-- Consuming the fixed prefix `reccli-ts run -c "` of every command the
scripts build: three literal words, then double-quote mode. -/
theorem lex_prefix (l : List Char) :
    shLexAux .norm (("reccli-ts run -c \"" : String).data ++ l) none [] =
      shLexAux .dq l (some [])
        [ShTok.word "-c", ShTok.word "run", ShTok.word "reccli-ts"] := by
  show shLexAux .norm
    (['r', 'e', 'c', 'c', 'l', 'i', '-', 't', 's'] ++
      (' ' :: (['r', 'u', 'n'] ++
        (' ' :: (['-', 'c'] ++ (' ' :: ('"' :: l))))))) none [] = _
  rw [lex_norm_word_start (by decide) (by decide), lex_norm_blank,
    show flushWord (some (['r', 'e', 'c', 'c', 'l', 'i', '-', 't', 's'].reverse)) [] =
      [ShTok.word "reccli-ts"] from by decide]
  rw [lex_norm_word_start (by decide) (by decide), lex_norm_blank,
    show flushWord (some (['r', 'u', 'n'].reverse)) [ShTok.word "reccli-ts"] =
      [ShTok.word "run", ShTok.word "reccli-ts"] from by decide]
  rw [lex_norm_word_start (by decide) (by decide), lex_norm_blank,
    show flushWord (some (['-', 'c'].reverse)) [ShTok.word "run", ShTok.word "reccli-ts"] =
      [ShTok.word "-c", ShTok.word "run", ShTok.word "reccli-ts"] from by decide]
  rw [lex_dq_open]
  rfl

/-- Stage 1: `/bin/sh` splits the full command into exactly the four words
`reccli-ts`, `run`, `-c`, and the inner command, verbatim. -/
theorem buildCmd_outer {sub : String} {paths : List String}
    (hsub : sub ≠ "" ∧ ∀ c ∈ sub.data, c.isAlpha = true)
    (hps : ∀ p ∈ paths, SafeEmbed p) :
    shLex (buildCmd sub paths) =
      some [ShTok.word "reccli-ts", ShTok.word "run", ShTok.word "-c",
            ShTok.word (innerCmd sub paths)] := by
  unfold shLex buildCmd
  rw [string_data_append, string_data_append, List.append_assoc,
    show ("\"" : String).data = ['"'] from rfl, lex_prefix,
    show ((innerCmd sub paths).data ++ ['"'] : List Char) =
      (innerCmd sub paths).data ++ ['"'] from rfl,
    lex_dq_run (innerCmd_dq hsub.2 hps), lex_dq_close, lex_norm_nil]
  simp [flushWord, string_mk_data]

/-- Stage 2: `reccli-ts run -c` receives the inner command; splitting it
again yields the subcommand and each original path as one word each. -/
theorem innerCmd_parse {sub : String} {paths : List String}
    (hsub : sub ≠ "" ∧ ∀ c ∈ sub.data, c.isAlpha = true)
    (hps : ∀ p ∈ paths, SafeEmbed p) :
    shLex (innerCmd sub paths) = some (ShTok.word sub :: paths.map ShTok.word) := by
  unfold shLex innerCmd
  rw [string_data_append,
    lex_norm_word_start (fun c hc => alphaChar_ord (hsub.2 c hc)) (data_ne_nil hsub.1),
    lex_args hps]
  simp [flushWord, string_mk_data]

/-! ### Facts about the Python string primitives -/

theorem string_data_mk (l : List Char) : (String.mk l).data = l := rfl

theorem dropWhile_head_not {p : Char → Bool} (l : List Char) (c : Char)
    (h : (l.dropWhile p).head? = some c) : p c = false := by
  induction l with
  | nil => simp [List.dropWhile] at h
  | cons d t ih =>
      rw [List.dropWhile_cons] at h
      by_cases hd : p d = true
      · rw [if_pos hd] at h; exact ih h
      · rw [if_neg hd] at h
        simp only [List.head?_cons, Option.some.injEq] at h
        subst h; simpa using hd

theorem getLast?_dropWhile {p : Char → Bool} (l : List Char)
    (h : l.dropWhile p ≠ []) : (l.dropWhile p).getLast? = l.getLast? := by
  induction l with
  | nil => simp [List.dropWhile] at h
  | cons d t ih =>
      rw [List.dropWhile_cons] at h ⊢
      by_cases hd : p d = true
      · rw [if_pos hd] at h ⊢
        have ht : t ≠ [] := by
          intro he; subst he; simp [List.dropWhile] at h
        rw [ih h]
        cases t with
        | nil => exact absurd rfl ht
        | cons x t' => rw [List.getLast?_cons_cons]
      · rw [if_neg hd]

theorem pyRstripSlash_append_slash (s : String) :
    pyRstripSlash (s ++ "/") = pyRstripSlash s := by
  apply string_ext
  show ((s ++ "/").data.reverse.dropWhile (· = '/')).reverse =
    (s.data.reverse.dropWhile (· = '/')).reverse
  rw [string_data_append]
  simp [List.dropWhile_cons]

theorem pyRstripSlash_of_not_ends {s : String} (h : endsSlash s = false) :
    pyRstripSlash s = s := by
  apply string_ext
  show (s.data.reverse.dropWhile (· = '/')).reverse = s.data
  have h' : s.data.getLast? ≠ some '/' := by
    simpa [endsSlash] using h
  cases hrev : s.data.reverse with
  | nil =>
      have hnil : s.data = [] := by
        have := congrArg List.reverse hrev
        simpa using this
      simp [hrev, hnil]
  | cons c t =>
      have hc : c ≠ '/' := by
        intro he; subst he
        apply h'
        rw [← List.head?_reverse, hrev]; rfl
      rw [List.dropWhile_cons, if_neg (by simpa using hc), ← hrev,
        List.reverse_reverse]

/-- `rstrip('/')` coincides with "strip exactly one trailing separator"
precisely when there is exactly one. -/
theorem pyRstripSlash_single {s : String} (h : endsSlash s = false) :
    pyRstripSlash (s ++ "/") = s := by
  rw [pyRstripSlash_append_slash, pyRstripSlash_of_not_ends h]

/-- `rstrip('/')` removes every trailing separator: the result never ends
in one. -/
theorem endsSlash_pyRstripSlash (s : String) : endsSlash (pyRstripSlash s) = false := by
  have hne : ((s.data.reverse.dropWhile (· = '/')).reverse).getLast? ≠ some '/' := by
    rw [List.getLast?_reverse]
    intro h
    have := dropWhile_head_not _ _ h
    simp at this
  simp only [endsSlash, pyRstripSlash, string_data_mk]
  exact decide_eq_false hne

theorem strip_chars_idem (p : Char → Bool) (l : List Char) :
    (((((l.dropWhile p).reverse.dropWhile p).reverse.dropWhile p).reverse.dropWhile
      p).reverse) = ((l.dropWhile p).reverse.dropWhile p).reverse := by
  generalize hl1 : l.dropWhile p = l1
  generalize hl2 : l1.reverse.dropWhile p = l2
  have hhead1 : ∀ c, l1.head? = some c → p c = false := fun c hc =>
    dropWhile_head_not l c (by rw [hl1]; exact hc)
  have hhead2 : ∀ c, l2.head? = some c → p c = false := fun c hc =>
    dropWhile_head_not l1.reverse c (by rw [hl2]; exact hc)
  have hlast2 : ∀ c, l2.getLast? = some c → p c = false := by
    intro c hc
    have hne : l1.reverse.dropWhile p ≠ [] := by
      rw [hl2]; intro he; rw [he] at hc; simp at hc
    have hg : l2.getLast? = l1.reverse.getLast? := by
      rw [← hl2]; exact getLast?_dropWhile l1.reverse hne
    rw [hg, List.getLast?_reverse] at hc
    exact hhead1 c hc
  have hA : l2.reverse.dropWhile p = l2.reverse := by
    cases hh : l2.reverse with
    | nil => simp
    | cons c t =>
        have hc : l2.getLast? = some c := by
          rw [← List.head?_reverse, hh]; rfl
        rw [List.dropWhile_cons, if_neg (by simp [hlast2 c hc])]
  have hB : l2.dropWhile p = l2 := by
    cases hh : l2 with
    | nil => simp
    | cons c t =>
        have hc : l2.head? = some c := by rw [hh]; rfl
        rw [List.dropWhile_cons, if_neg (by simp [hhead2 c hc])]
  rw [hA, List.reverse_reverse, hB]

theorem pyStrip_idem (s : String) : pyStrip (pyStrip s) = pyStrip s := by
  apply string_ext
  exact strip_chars_idem isPySpace s.data

/-! ### Facts about the parsed entry sequence -/

theorem processedNames_eq_filter (items : List String) :
    processedNames items = (items.map pyStrip).filter (fun n => n ≠ "") := by
  induction items with
  | nil => rfl
  | cons item rest ih =>
      simp only [processedNames, List.map_cons, List.filter_cons]
      by_cases h : pyStrip item = ""
      · simp [h, ih]
      · simp [h, ih]

theorem processedNames_sublist (items : List String) :
    (processedNames items).Sublist (items.map pyStrip) := by
  rw [processedNames_eq_filter]
  exact List.filter_sublist _

theorem splitlinesAux_line {cs : List Char}
    (h : ∀ c ∈ cs, isPyLineBreak c = false) (rest : List Char) (acc : List Char) :
    splitlinesAux (cs ++ '\n' :: rest) acc false =
      String.mk (acc.reverse ++ cs) :: splitlinesAux rest [] false := by
  induction cs generalizing acc with
  | nil => simp [splitlinesAux]
  | cons c cs ih =>
      have hc := h c (List.mem_cons_self c cs)
      have hn : c ≠ '\n' := by
        intro he; rw [he] at hc; simp [isPyLineBreak] at hc
      have hr : c ≠ '\x0d' := by
        intro he; rw [he] at hc; simp [isPyLineBreak] at hc
      rw [List.cons_append,
        show splitlinesAux (c :: (cs ++ '\n' :: rest)) acc false =
          splitlinesAux (cs ++ '\n' :: rest) (c :: acc) false from by
            simp [splitlinesAux, hn, hr, hc],
        ih (fun d hd => h d (List.mem_cons_of_mem c hd))]
      simp

theorem splitlines_joinNL {lines : List String}
    (h : ∀ l ∈ lines, ∀ c ∈ l.data, isPyLineBreak c = false) :
    splitlines (joinNL lines) = lines := by
  induction lines with
  | nil => rfl
  | cons l ls ih =>
      show splitlinesAux (l ++ "\n" ++ joinNL ls).data [] false = l :: ls
      rw [string_data_append, string_data_append,
        show ("\n" : String).data = ['\n'] from rfl, List.append_assoc,
        List.singleton_append,
        splitlinesAux_line (h l (List.mem_cons_self l ls))]
      rw [show splitlinesAux (joinNL ls).data [] false = splitlines (joinNL ls) from rfl,
        ih (fun m hm => h m (List.mem_cons_of_mem l hm))]
      simp [string_mk_data]

theorem processItemDl_strip (o : Oracle) (fuel : Nat) (rp lp item : String) :
    processItemDl o fuel rp lp (pyStrip item) = processItemDl o fuel rp lp item := by
  simp [processItemDl, processItemDlCore, pyStrip_idem]

theorem processItemsDl_strip (o : Oracle) (fuel : Nat) (rp lp : String)
    (items : List String) :
    processItemsDl o fuel rp lp (processedNames items) =
      processItemsDl o fuel rp lp items := by
  induction items with
  | nil => rfl
  | cons item rest ih =>
      by_cases h : pyStrip item = ""
      · have h0 : processItemDl o fuel rp lp item = [] := by
          simp [processItemDl, processItemDlCore, h]
        simp [processedNames, processItemsDl, concatMap, h, h0] at ih ⊢
        exact ih
      · simp only [processedNames, processItemsDl, concatMap, if_neg h]
        rw [processItemDl_strip]
        simp only [processItemsDl, processedNames] at ih
        rw [ih]

theorem endsSlash_append (a b : String) (h : endsSlash b = true) :
    endsSlash (a ++ b) = true := by
  simp only [endsSlash, decide_eq_true_eq] at h ⊢
  rw [string_data_append,
    List.getLast?_append_of_ne_nil _ (by intro he; rw [he] at h; simp at h)]
  exact h

/-! ### The claims -/

/-- **C1** (counterexample).  The claim: every path interpolated into an
external command string, once escaped by `escape_shell_path` and embedded
in the full command handed to the shell, un-escapes back to the exact
original path as a single literal argument, and cannot inject commands.
This fails because the scripts splice the single-quoted path inside the
*double-quoted* `-c "..."` region, where a single quote does not protect
`"`, `$`, a backtick or a backslash: for the path `a"b` the full command
does not even parse (unterminated quote), and for the path
`"; echo pwned; "` the shell sees an additional `echo` command. -/
theorem c1_counterexample :
    escape_shell_path "a\"b" = "'a\"b'" ∧
    shLex (lspCmd "a\"b") = none ∧
    shLex (lspCmd "\"; echo pwned; \"") =
      some [ShTok.word "reccli-ts", ShTok.word "run", ShTok.word "-c",
            ShTok.word "lsp '", ShTok.op ';', ShTok.word "echo", ShTok.word "pwned",
            ShTok.op ';', ShTok.word "'"] :=
  ⟨by decide, by decide, by decide⟩

/-- **C1** (amended).  For every path containing no single quote, double
quote, dollar, backtick or backslash — in particular every path containing
only spaces or the remaining shell metacharacters (`;`, `|`, `&`, `<`,
`>`, parentheses, `*`, `?`, …) — the two-stage un-escaping is exact: the
outer shell splits the full command into exactly the four words
`reccli-ts`, `run`, `-c` and the inner command (escaped path preserved
verbatim, no operator token, hence no additional command or option), and
splitting the inner command yields the subcommand plus each original path
as one single literal argument.  This covers every call site
(`lsp`, `download`, `upload`, `mkdir`, `rm`, one or two paths). -/
theorem c1_claim (sub : String) (paths : List String)
    (hsub : sub ≠ "" ∧ ∀ c ∈ sub.data, c.isAlpha = true)
    (hps : ∀ p ∈ paths, SafeEmbed p) :
    shLex (buildCmd sub paths) =
      some [ShTok.word "reccli-ts", ShTok.word "run", ShTok.word "-c",
            ShTok.word (innerCmd sub paths)] ∧
    shLex (innerCmd sub paths) = some (ShTok.word sub :: paths.map ShTok.word) :=
  ⟨buildCmd_outer hsub hps, innerCmd_parse hsub hps⟩

/-- Closed instance of the amended C1: the `download` command for a remote
and a local path both containing spaces. -/
theorem c1_witness :
    (("download" : String) ≠ "" ∧ ∀ c ∈ ("download" : String).data, c.isAlpha = true) ∧
    (∀ p ∈ (["/cloud/My Files/a b.txt", "./down load"] : List String), SafeEmbed p) ∧
    shLex (buildCmd "download" ["/cloud/My Files/a b.txt", "./down load"]) =
      some [ShTok.word "reccli-ts", ShTok.word "run", ShTok.word "-c",
            ShTok.word (innerCmd "download" ["/cloud/My Files/a b.txt", "./down load"])] ∧
    shLex (innerCmd "download" ["/cloud/My Files/a b.txt", "./down load"]) =
      some [ShTok.word "download", ShTok.word "/cloud/My Files/a b.txt",
            ShTok.word "./down load"] := by
  refine ⟨⟨by decide, by decide⟩, by decide, ?_, ?_⟩
  · exact (c1_claim "download" _ ⟨by decide, by decide⟩ (by decide)).1
  · have h := (c1_claim "download" ["/cloud/My Files/a b.txt", "./down load"]
      ⟨by decide, by decide⟩ (by decide)).2
    simpa using h

/-- **C2** (counterexample).  The claim: the traversal strips exactly one
trailing separator, never more.  The code uses Python `rstrip('/')`,
which strips all of them: for a listing entry `sub//` the local directory
created is `./l/sub`, not the `./l/sub/` that stripping exactly one
separator (spec-side `stripOneTrailingSlash`) would give. -/
theorem c2_counterexample :
    process_remote_path oracleDoubleSlash 2 "/r" "./l" =
      [Event.makedirs "./l/sub", Event.listErr "/r/sub"] ∧
    pyJoin "./l" (stripOneTrailingSlash "sub//") = "./l/sub/" ∧
    Event.makedirs (pyJoin "./l" (stripOneTrailingSlash "sub//")) ∉
      process_remote_path oracleDoubleSlash 2 "/r" "./l" :=
  ⟨by decide, by decide, by decide⟩

/-- **C2** (amended).  Every entry whose trimmed name ends in `/` is
classified as a directory and handled by the makedirs-and-recurse branch;
the recursive remote subpath and local directory name are formed with
`rstrip('/')`, which strips *all* trailing separators (the result never
ends in one); this coincides with stripping exactly one separator
precisely when the name ends in exactly one. -/
theorem c2_claim (o : Oracle) (fuel : Nat) (rp lp item : String)
    (h1 : pyStrip item ≠ "") (h2 : endsSlash (pyStrip item) = true) :
    processItemDl o fuel rp lp item =
      Event.makedirs (pyJoin lp (pyRstripSlash (pyStrip item))) ::
        process_remote_path o fuel (pyRstripSlash (rp ++ "/" ++ pyStrip item))
          (pyJoin lp (pyRstripSlash (pyStrip item))) ∧
    endsSlash (pyRstripSlash (pyStrip item)) = false ∧
    (∀ s : String, endsSlash s = false → pyRstripSlash (s ++ "/") = s) := by
  refine ⟨?_, endsSlash_pyRstripSlash _, fun s hs => pyRstripSlash_single hs⟩
  simp [processItemDl, processItemDlCore, h1, h2]

/-- Closed instance of the amended C2 at the single-separator entry
`sub/`. -/
theorem c2_witness :
    pyStrip "sub/" ≠ "" ∧ endsSlash (pyStrip "sub/") = true ∧
    (processItemDl oracleListFail 1 "/r" "./l" "sub/" =
      Event.makedirs (pyJoin "./l" (pyRstripSlash (pyStrip "sub/"))) ::
        process_remote_path oracleListFail 1
          (pyRstripSlash ("/r" ++ "/" ++ pyStrip "sub/"))
          (pyJoin "./l" (pyRstripSlash (pyStrip "sub/"))) ∧
      endsSlash (pyRstripSlash (pyStrip "sub/")) = false ∧
      (∀ s : String, endsSlash s = false → pyRstripSlash (s ++ "/") = s)) :=
  ⟨by decide, by decide,
    c2_claim oracleListFail 1 "/r" "./l" "sub/" (by decide) (by decide)⟩

/-- **C3**.  For every stdout of a successful listing, the parsed entry
sequence (`splitlines` from `get_remote_files`, then the per-entry
strip-and-skip of the loops, `processedNames`) equals the blank-filtered
trim of the lines, in order (a sublist of the trimmed lines); the
traversal loop acts on exactly this sequence; and `splitlines` splits at
line boundaries: joining boundary-free lines with `\n` is a left
inverse. -/
theorem c3_claim (o : Oracle) (p stdout : String)
    (h : o.out (lspCmd p) = some stdout) :
    (get_remote_files o p).1 = splitlines stdout ∧
    processedNames (splitlines stdout) =
      ((splitlines stdout).map pyStrip).filter (fun n => n ≠ "") ∧
    (processedNames (splitlines stdout)).Sublist ((splitlines stdout).map pyStrip) ∧
    (∀ fuel rp lp, processItemsDl o fuel rp lp (processedNames (splitlines stdout)) =
      processItemsDl o fuel rp lp (splitlines stdout)) ∧
    (∀ lines : List String, (∀ l ∈ lines, ∀ c ∈ l.data, isPyLineBreak c = false) →
      splitlines (joinNL lines) = lines) :=
  ⟨by simp [get_remote_files, h], processedNames_eq_filter _, processedNames_sublist _,
    fun fuel rp lp => processItemsDl_strip o fuel rp lp _,
    fun _ hl => splitlines_joinNL hl⟩

/-- Closed instance of C3 on a listing with blank and whitespace-only
lines interleaved. -/
theorem c3_witness :
    oracleDownloadTree.out (lspCmd "/cloud/download") = some "a.txt\nsub/\n" ∧
    ((get_remote_files oracleDownloadTree "/cloud/download").1 =
      splitlines "a.txt\nsub/\n" ∧
    processedNames (splitlines "a.txt\nsub/\n") =
      ((splitlines "a.txt\nsub/\n").map pyStrip).filter (fun n => n ≠ "") ∧
    (processedNames (splitlines "a.txt\nsub/\n")).Sublist
      ((splitlines "a.txt\nsub/\n").map pyStrip) ∧
    (∀ fuel rp lp, processItemsDl oracleDownloadTree fuel rp lp
        (processedNames (splitlines "a.txt\nsub/\n")) =
      processItemsDl oracleDownloadTree fuel rp lp (splitlines "a.txt\nsub/\n")) ∧
    (∀ lines : List String, (∀ l ∈ lines, ∀ c ∈ l.data, isPyLineBreak c = false) →
      splitlines (joinNL lines) = lines)) ∧
    processedNames (splitlines " a.txt \n\n   \nsub/\n") = ["a.txt", "sub/"] ∧
    splitlines "a\x0bb\n\x1c\nsub/\n" = ["a", "b", "", "", "sub/"] ∧
    processedNames (splitlines "x\n\x1f\ny\n") = ["x", "y"] :=
  ⟨by decide,
    c3_claim oracleDownloadTree "/cloud/download" "a.txt\nsub/\n" (by decide),
    by decide, by decide, by decide⟩

/-- **C4**.  A failed listing yields the empty entry list (plus the logged
error), so the subtree contributes no children beyond the log line; the
loop over any entry list is the concatenation of the per-entry traces, so
entries after a failing subtree are still processed; the model is a total
function — no exception channel exists in `process_remote_path`. -/
theorem c4_claim (o : Oracle) (fuel : Nat) (rp lp : String)
    (h : o.out (lspCmd rp) = none) :
    get_remote_files o rp = ([], [Event.listErr rp]) ∧
    process_remote_path o (fuel + 1) rp lp = [Event.listErr rp] ∧
    (∀ xs ys, processItemsDl o fuel rp lp (xs ++ ys) =
      processItemsDl o fuel rp lp xs ++ processItemsDl o fuel rp lp ys) := by
  refine ⟨by simp [get_remote_files, h], ?_,
    fun xs ys => concatMap_append _ xs ys⟩
  simp [process_remote_path, get_remote_files, h, concatMap]

/-- Closed instance of C4: the root listing fails, the traversal returns
only the log event. -/
theorem c4_witness :
    oracleAllFail.out (lspCmd "/cloud/download") = none ∧
    (get_remote_files oracleAllFail "/cloud/download" =
      ([], [Event.listErr "/cloud/download"]) ∧
    process_remote_path oracleAllFail (0 + 1) "/cloud/download" "./download" =
      [Event.listErr "/cloud/download"] ∧
    (∀ xs ys, processItemsDl oracleAllFail 0 "/cloud/download" "./download" (xs ++ ys) =
      processItemsDl oracleAllFail 0 "/cloud/download" "./download" xs ++
        processItemsDl oracleAllFail 0 "/cloud/download" "./download" ys)) :=
  ⟨by decide, c4_claim oracleAllFail 0 "/cloud/download" "./download" (by decide)⟩

/-- **C5**.  `clear_recycle` lists the fixed path `/recycle` (its literal
command string is exactly the generic builder applied to `/recycle`),
then concatenates the independent per-entry traces; every non-blank entry
produces exactly one removal attempt at `/recycle/` + name, logged as
success or failure; with entries `x.txt`, `y.txt` where `x.txt` fails,
`y.txt` is still attempted and reported removed. -/
theorem c5_claim (o : Oracle) :
    lspRecycleCmd = buildCmd "lsp" ["/recycle"] ∧
    clear_recycle o =
      (get_remote_recycle_files o).2 ++
        concatMap (clearItem o) (get_remote_recycle_files o).1 ∧
    (∀ xs ys, concatMap (clearItem o) (xs ++ ys) =
      concatMap (clearItem o) xs ++ concatMap (clearItem o) ys) ∧
    (∀ item, pyStrip item ≠ "" →
      clearItem o item =
        [if o.ok (rmCmd ("/recycle/" ++ pyStrip item)) then
          Event.removedOk ("/recycle/" ++ pyStrip item)
        else Event.removedErr ("/recycle/" ++ pyStrip item)]) ∧
    clear_recycle oracleRecycle =
      [Event.removedErr "/recycle/x.txt", Event.removedOk "/recycle/y.txt"] := by
  refine ⟨by decide, rfl, fun xs ys => concatMap_append _ xs ys, ?_, by decide⟩
  intro item h
  by_cases ho : o.ok (rmCmd ("/recycle/" ++ pyStrip item)) = true <;>
    simp [clearItem, h, ho]

/-- Closed instance of C5's per-entry shape at the failing entry. -/
theorem c5_witness :
    pyStrip "x.txt" ≠ "" ∧
    clearItem oracleRecycle "x.txt" =
      [if oracleRecycle.ok (rmCmd ("/recycle/" ++ pyStrip "x.txt")) then
        Event.removedOk ("/recycle/" ++ pyStrip "x.txt")
      else Event.removedErr ("/recycle/" ++ pyStrip "x.txt")] :=
  ⟨by decide, (c5_claim oracleRecycle).2.2.2.1 "x.txt" (by decide)⟩

/-- **C6**.  `remote_path_exists` holds exactly when the parent listing
succeeds and some entry's trim equals the directory's basename plus `/`;
`ensure_remote_path` skips creation exactly when the check holds, and
otherwise issues exactly the one `mkdir` command, logging success or
failure and returning either way (the model is total: a `mkdir` failure
only changes the logged event). -/
theorem c6_claim (o : Oracle) (p : String) :
    (remote_path_exists o p = true ↔
      ∃ stdout, o.out (lspCmd (dirname (pyRstripSlash p))) = some stdout ∧
        ∃ item ∈ splitlines stdout,
          pyStrip item = basename (pyRstripSlash p) ++ "/") ∧
    (ensure_remote_path o p = [] ↔ remote_path_exists o p = true) ∧
    (remote_path_exists o p = false →
      ensure_remote_path o p =
        [if o.ok (mkdirCmd p) then Event.mkdirOk p else Event.mkdirErr p]) := by
  refine ⟨?_, ?_, ?_⟩
  · unfold remote_path_exists
    cases h : o.out (lspCmd (dirname (pyRstripSlash p))) with
    | none => simp [h]
    | some stdout => simp [h, List.any_eq_true]
  · by_cases h : remote_path_exists o p = true
    · simp [ensure_remote_path, h]
    · have h1 : remote_path_exists o p = false := eq_false_of_ne_true h
      by_cases ho : o.ok (mkdirCmd p) = true <;>
        simp [ensure_remote_path, h1, ho]
  · intro h
    by_cases ho : o.ok (mkdirCmd p) = true <;>
      simp [ensure_remote_path, h, ho]

/-- Closed instance of C6: `/cloud/upload` is found in the parent listing
of `/cloud`, so no `mkdir` is issued. -/
theorem c6_witness :
    remote_path_exists oracleParentListing "/cloud/upload" = true ∧
    ensure_remote_path oracleParentListing "/cloud/upload" = [] :=
  ⟨by decide,
    ((c6_claim oracleParentListing "/cloud/upload").2.1).2 (by decide)⟩

/-- **C8**.  When listing the parent fails, `remote_path_exists` answers
false — indistinguishable from absence — and `ensure_remote_path`
therefore attempts the `mkdir` command. -/
theorem c8_claim (o : Oracle) (p : String)
    (h : o.out (lspCmd (dirname (pyRstripSlash p))) = none) :
    remote_path_exists o p = false ∧
    ensure_remote_path o p =
      [if o.ok (mkdirCmd p) then Event.mkdirOk p else Event.mkdirErr p] := by
  have h1 : remote_path_exists o p = false := by
    unfold remote_path_exists
    simp [h]
  refine ⟨h1, ?_⟩
  by_cases ho : o.ok (mkdirCmd p) = true <;>
    simp [ensure_remote_path, h1, ho]

/-- Closed instance of C8: everything fails, yet `mkdir` is attempted. -/
theorem c8_witness :
    oracleAllFail.out (lspCmd (dirname (pyRstripSlash "/cloud/upload"))) = none ∧
    (remote_path_exists oracleAllFail "/cloud/upload" = false ∧
    ensure_remote_path oracleAllFail "/cloud/upload" =
      [if oracleAllFail.ok (mkdirCmd "/cloud/upload") then
        Event.mkdirOk "/cloud/upload"
      else Event.mkdirErr "/cloud/upload"]) :=
  ⟨by decide, c8_claim oracleAllFail "/cloud/upload" (by decide)⟩

/-- **C7**.  The download flow: the script first ensures the fixed local
root (`os.makedirs` on `./download`) and then traverses the fixed remote
root; within the traversal, each non-blank directory entry produces the
local `makedirs` event *before* the recursive call's events, and each
non-blank file entry produces exactly the one download invocation into
the current local path; on the remote tree
`/cloud/download/{a.txt, sub/b.txt}` the full trace downloads
`./download/a.txt`, creates `./download/sub`, then downloads
`./download/sub/b.txt`. -/
theorem c7_claim (o : Oracle) (fuel : Nat) (rp lp item : String)
    (h1 : pyStrip item ≠ "") :
    mainDownload o fuel =
      Event.makedirs "./download" ::
        process_remote_path o fuel "/cloud/download" "./download" ∧
    (endsSlash (pyStrip item) = true →
      processItemDl o fuel rp lp item =
        Event.makedirs (pyJoin lp (pyRstripSlash (pyStrip item))) ::
          process_remote_path o fuel (pyRstripSlash (rp ++ "/" ++ pyStrip item))
            (pyJoin lp (pyRstripSlash (pyStrip item)))) ∧
    (endsSlash (pyStrip item) = false →
      processItemDl o fuel rp lp item =
        download_file o (rp ++ "/" ++ pyStrip item) (pyJoin lp (pyStrip item))) ∧
    mainDownload oracleDownloadTree 3 =
      [Event.makedirs "./download",
       Event.downloadOk "/cloud/download/a.txt" "./download/a.txt",
       Event.makedirs "./download/sub",
       Event.downloadOk "/cloud/download/sub/b.txt" "./download/sub/b.txt"] := by
  refine ⟨rfl, ?_, ?_, by decide⟩
  · intro h2; simp [processItemDl, processItemDlCore, h1, h2]
  · intro h2; simp [processItemDl, processItemDlCore, h1, h2]

/-- Closed instance of C7's file branch at `a.txt`. -/
theorem c7_witness :
    pyStrip "a.txt" ≠ "" ∧ endsSlash (pyStrip "a.txt") = false ∧
    processItemDl oracleDownloadTree 2 "/cloud/download" "./download" "a.txt" =
      download_file oracleDownloadTree ("/cloud/download" ++ "/" ++ pyStrip "a.txt")
        (pyJoin "./download" (pyStrip "a.txt")) :=
  ⟨by decide, by decide,
    (c7_claim oracleDownloadTree 2 "/cloud/download" "./download" "a.txt"
      (by decide)).2.2.1 (by decide)⟩

/-- **C9**.  `clear_recycle` issues, per non-blank entry, exactly one
remove command at `/recycle/` + the trimmed name — the trailing `/` of a
directory entry is retained (appending a slash-ending name keeps the
slash), no recursion into the entry happens (the trace is the one removal
event) — so the entry `sub/` is removed via the single path
`/recycle/sub/`. -/
theorem c9_claim (o : Oracle) (item : String) (h : pyStrip item ≠ "") :
    clearItem o item =
      [if o.ok (rmCmd ("/recycle/" ++ pyStrip item)) then
        Event.removedOk ("/recycle/" ++ pyStrip item)
      else Event.removedErr ("/recycle/" ++ pyStrip item)] ∧
    (endsSlash (pyStrip item) = true →
      endsSlash ("/recycle/" ++ pyStrip item) = true) ∧
    (clearItem o item).length = 1 ∧
    clearItem oracleDownloadTree "sub/" = [Event.removedOk "/recycle/sub/"] := by
  have h1 : clearItem o item =
      [if o.ok (rmCmd ("/recycle/" ++ pyStrip item)) then
        Event.removedOk ("/recycle/" ++ pyStrip item)
      else Event.removedErr ("/recycle/" ++ pyStrip item)] := by
    by_cases ho : o.ok (rmCmd ("/recycle/" ++ pyStrip item)) = true <;>
      simp [clearItem, h, ho]
  refine ⟨h1, fun h2 => endsSlash_append _ _ h2, ?_, by decide⟩
  rw [h1]; rfl

/-- Closed instance of C9 at the directory entry `sub/`. -/
theorem c9_witness :
    pyStrip "sub/" ≠ "" ∧
    clearItem oracleRecycle "sub/" =
      [if oracleRecycle.ok (rmCmd ("/recycle/" ++ pyStrip "sub/")) then
        Event.removedOk ("/recycle/" ++ pyStrip "sub/")
      else Event.removedErr ("/recycle/" ++ pyStrip "sub/")] :=
  ⟨by decide, (c9_claim oracleRecycle "sub/" (by decide)).1⟩

/-- **C10**.  `process_local_path` wraps no `try` around `os.listdir`: if
enumerating the local path raises, the traversal aborts with that
exception, the only events being the root `ensure_remote_path` that ran
before the enumeration; by contrast, when every *remote* command fails but
the local filesystem is healthy, the traversal completes without any
exception. -/
theorem c10_claim (fs : LocalFS) (o : Oracle) (fuel : Nat) (lp rp : String)
    (e : PyExc) (h : fs.listdir lp = Except.error e) :
    process_local_path fs o (fuel + 1) lp rp = (ensure_remote_path o rp, some e) ∧
    (process_local_path fsOneFile oracleAllFail 2 "./upload" "/cloud/upload").2 =
      none := by
  refine ⟨?_, by decide⟩
  simp [process_local_path, h]

/-- Closed instance of C10: `os.listdir("./upload")` raises, the
traversal aborts with that exception. -/
theorem c10_witness :
    fsAllFail.listdir "./upload" = Except.error (PyExc.osError "./upload") ∧
    (process_local_path fsAllFail oracleAllFail (0 + 1) "./upload" "/cloud/upload" =
      (ensure_remote_path oracleAllFail "/cloud/upload",
        some (PyExc.osError "./upload")) ∧
    (process_local_path fsOneFile oracleAllFail 2 "./upload" "/cloud/upload").2 =
      none) :=
  ⟨rfl, c10_claim fsAllFail oracleAllFail 0 "./upload" "/cloud/upload"
    (PyExc.osError "./upload") rfl⟩

end RecCli
